import Mathlib

/-!
Verification development for the anyrepo manifest dependency resolution engine.

The Python data containers of `src/anyrepo/manifest.py` are embedded as plain
Lean structures, Python `Optional[str]` becomes `Option String`, and Python
exceptions become `Except` values carrying the raised message.  The traversal
generators of `src/anyrepo/iters.py` are embedded as fueled recursive
functions.  Parts of the repository that the iterators call but that are not
part of the manifest module (the newer `ManifestSpec`/`Project.from_spec` API)
are modelled from the specification and are marked as such in their doc
comments.
-/

deriving instance DecidableEq for Except

namespace AnyRepo

/-- Python truthiness of an `Optional[str]` value: `None` and the empty string
are falsy, every other string is truthy. -/
def pyTruthy : Option String → Bool
  | none => false
  | some s => !(s == "")

/-- Python `a or b` on `Optional[str]` values: `b` when `a` is falsy. -/
def pyOr (a b : Option String) : Option String := if pyTruthy a then a else b

/-- Python `a or b` where the fallback `b` is a plain string, so the result is
always a plain string (used for `project.path or project.name` etc.). -/
def pyOrS (a : Option String) (b : String) : String :=
  match a with
  | none => b
  | some s => if s == "" then b else s

/-- Python f-string rendering of an `Optional[str]`: `None` prints as "None". -/
def pyStr : Option String → String
  | none => "None"
  | some s => s

/-- Embeds `Remote` (src/anyrepo/manifest.py:17-26): a named base URL. -/
structure Remote where
  name : String
  url_base : Option String := none
deriving DecidableEq

/-- Embeds `Defaults` (src/anyrepo/manifest.py:29-40): fallback remote name and
revision. -/
structure Defaults where
  remote : Option String := none
  revision : Option String := none
deriving DecidableEq

/-- Embeds `Project` (src/anyrepo/manifest.py:43-64): one project declaration in
a manifest. -/
structure Project where
  name : String
  remote : Option String := none
  sub_url : Option String := none
  url : Option String := none
  revision : Option String := none
  path : Option String := none
deriving DecidableEq

/-- Embeds the root validator `Project._remote_or_url`
(src/anyrepo/manifest.py:66-78).  Python raises `ValueError(msg)` for a violated
rule; this is modelled as `Except.error msg`.  The `if remote and url:` tests use
Python truthiness, so `None` and `""` both count as absent. -/
def Project.remote_or_url (p : Project) : Except String Unit :=
  if pyTruthy p.remote && pyTruthy p.url then
    .error "\x27remote\x27 and \x27url\x27 are mutually exclusive"
  else if pyTruthy p.url && pyTruthy p.sub_url then
    .error "\x27url\x27 and \x27sub-url\x27 are mutually exclusive"
  else if pyTruthy p.sub_url && !pyTruthy p.remote then
    .error "\x27sub-url\x27 requires \x27remote\x27"
  else .ok ()

/-- Embeds `Manifest` (src/anyrepo/manifest.py:81-95): the parsed content of one
manifest file.  The later revision of the code calls this class `ManifestSpec`
and names the `projects` list `dependencies`; the fields are identical. -/
structure Manifest where
  main : Project := { name := "main" }
  defaults : Defaults := {}
  remotes : List Remote := []
  projects : List Project := []
deriving DecidableEq

/-- Modelled from the spec: the Manifest Document's "ordered list of Project
Declarations" (§3).  `src/anyrepo/iters.py` iterates `manifest.dependencies`,
the newer name of the `projects` field of `Manifest`. -/
def Manifest.dependencies (m : Manifest) : List Project := m.projects

/-- Embeds `ResolvedProject` (src/anyrepo/manifest.py:115-133): a declaration
merged against defaults and remotes.  `ResolvedProject.from_project` only ever
sets `name`, `path`, `url` and `revision`; the never-populated `manifest` field
is omitted here. -/
structure ResolvedProject where
  name : String
  path : String
  url : Option String := none
  revision : Option String := none
deriving DecidableEq

/-- The URL assembly block of `ResolvedProject.from_project`
(src/anyrepo/manifest.py:140-151), factored out: when `project.url` is truthy it
is used verbatim; otherwise, if the effective remote (`project.remote or
defaults.remote`) is truthy, the remote list is walked for the first alias with
that name and the URL becomes `f"{remote.url_base}/{project_sub_url}"`; when no
alias matches, Python raises `ValueError(f"Unknown remote {project.remote} for
project {project.name}")`, modelled as `Except.error` with that exact message.
With no truthy URL and no truthy effective remote the (falsy) `project.url`
is kept. -/
def assembleUrl (defaults : Defaults) (remotes : List Remote) (project : Project) :
    Except String (Option String) :=
  if pyTruthy project.url then .ok project.url
  else if pyTruthy (pyOr project.remote defaults.remote) then
    match remotes.find? (fun remote => remote.name == (pyOr project.remote defaults.remote).getD "") with
    | some remote => .ok (some (pyStr remote.url_base ++ "/" ++ pyOrS project.sub_url project.name))
    | none => .error ("Unknown remote " ++ pyStr project.remote ++ " for project " ++ project.name)
  else .ok project.url

/-- Embeds `ResolvedProject.from_project` (src/anyrepo/manifest.py:135-157):
`path` is `project.path or project.name`, `revision` is `project.revision or
defaults.revision`, and `url` comes from the URL assembly block. -/
def ResolvedProject.from_project (defaults : Defaults) (remotes : List Remote)
    (project : Project) : Except String ResolvedProject :=
  match assembleUrl defaults remotes project with
  | .error e => .error e
  | .ok url =>
      .ok { name := project.name, path := pyOrS project.path project.name,
            url := url, revision := pyOr project.revision defaults.revision }

/-- Raw (deserialized but unvalidated) form of a project entry, as produced by
`yaml.load`: every field may be absent.  `cls(**data)` fails when `name` is
missing or the root validator rejects the combination. -/
structure RawProject where
  name : Option String := none
  remote : Option String := none
  sub_url : Option String := none
  url : Option String := none
  revision : Option String := none
  path : Option String := none
deriving DecidableEq

/-- Raw form of `Defaults`: both fields optional, no further validation. -/
structure RawDefaults where
  remote : Option String := none
  revision : Option String := none
deriving DecidableEq

/-- Raw form of `Remote`: `name` is required by pydantic, `url-base` optional. -/
structure RawRemote where
  name : Option String := none
  url_base : Option String := none
deriving DecidableEq

/-- Raw form of the value under the top-level `manifest` key: all four fields
optional (`self` maps to `main`, `sub-url`/`url-base` aliasing is keyless in
this structural model). -/
structure RawManifest where
  main : Option RawProject := none
  defaults : Option RawDefaults := none
  remotes : Option (List RawRemote) := none
  projects : Option (List RawProject) := none
deriving DecidableEq

/-- The content of a file as seen by `Manifest.load` after `path.read_text()`:
either text `yaml.load` raises on, or a YAML document that is not a mapping
(so `data.get` raises `AttributeError`), or a mapping with an optional
`manifest` key. -/
inductive FileContent where
  | invalidYaml
  | nonMapping
  | doc (manifest : Option RawManifest)
deriving DecidableEq

/-- Pydantic construction of a `Project` from raw fields: `name` is required and
the `_remote_or_url` root validator must accept the combination. -/
def parseProject (rp : RawProject) : Except String Project :=
  match rp.name with
  | none => .error "field required: name"
  | some name =>
      let p : Project := { name := name, remote := rp.remote, sub_url := rp.sub_url,
                           url := rp.url, revision := rp.revision, path := rp.path }
      match p.remote_or_url with
      | .error e => .error e
      | .ok _ => .ok p

/-- Pydantic construction of `Defaults` from raw fields (never fails). -/
def parseDefaults (rd : RawDefaults) : Defaults :=
  { remote := rd.remote, revision := rd.revision }

/-- Pydantic construction of a `Remote` from raw fields: `name` is required. -/
def parseRemote (rr : RawRemote) : Except String Remote :=
  match rr.name with
  | none => .error "field required: name"
  | some name => .ok { name := name, url_base := rr.url_base }

/-- Sequence a fallible parser over a list, failing on the first error (the
behavior of pydantic validating a list field). -/
def mapExcept (f : α → Except String β) : List α → Except String (List β)
  | [] => .ok []
  | a :: rest =>
      match f a with
      | .error e => .error e
      | .ok b =>
          match mapExcept f rest with
          | .error e => .error e
          | .ok bs => .ok (b :: bs)

/-- Pydantic construction of a `Manifest` from the raw `manifest` mapping
(`Manifest(**manifestdata)`, src/anyrepo/manifest.py:106): absent fields take
the declared defaults, present lists are validated element by element. -/
def parseManifest (rm : RawManifest) : Except String Manifest :=
  match (match rm.main with
         | none => .ok { name := "main" }
         | some rp => parseProject rp : Except String Project) with
  | .error e => .error e
  | .ok main =>
      match mapExcept parseRemote (rm.remotes.getD []) with
      | .error e => .error e
      | .ok remotes =>
          match mapExcept parseProject (rm.projects.getD []) with
          | .error e => .error e
          | .ok projects =>
              .ok { main := main, defaults := parseDefaults (rm.defaults.getD {}),
                    remotes := remotes, projects := projects }

/-- The exceptions `Manifest.load` can surface.  `manifestError` is the
`ManifestError(path, details)` class defined in src/anyrepo/exceptions.py:52-58;
it is included so the spec's claim about it can be stated, but `Manifest.load`
never raises it: YAML failures, `data.get` on a non-mapping and pydantic
validation failures all propagate unwrapped. -/
inductive LoadErr where
  | manifestNotFoundError (path : String)
  | manifestError (path : String) (details : String)
  | yamlError
  | attributeError
  | validationError (msg : String)
deriving DecidableEq

/-- Embeds `Manifest.load` (src/anyrepo/manifest.py:97-106).  The filesystem is
a function from path to optional file content; a missing file raises
`ManifestNotFoundError(path)`, everything else follows the code: `yaml.load`,
`data.get("manifest", {})`, `cls(**manifestdata)`. -/
def Manifest.load (fs : String → Option FileContent) (path : String) :
    Except LoadErr Manifest :=
  match fs path with
  | none => .error (.manifestNotFoundError path)
  | some .invalidYaml => .error .yamlError
  | some .nonMapping => .error .attributeError
  | some (.doc m) =>
      match parseManifest (m.getD {}) with
      | .error e => .error (.validationError e)
      | .ok doc => .ok doc

/-- Serialization of a `Project` by `dict(by_alias=True, exclude_none=True)`:
`name` is always emitted, `None` fields are omitted (the raw `Option` fields
carry exactly the emitted-or-omitted distinction). -/
def dumpProject (p : Project) : RawProject :=
  { name := some p.name, remote := p.remote, sub_url := p.sub_url,
    url := p.url, revision := p.revision, path := p.path }

/-- Serialization of `Defaults` with `exclude_none=True`. -/
def dumpDefaults (d : Defaults) : RawDefaults :=
  { remote := d.remote, revision := d.revision }

/-- Serialization of a `Remote` with `exclude_none=True`. -/
def dumpRemote (r : Remote) : RawRemote :=
  { name := some r.name, url_base := r.url_base }

/-- Embeds `Manifest.save` (src/anyrepo/manifest.py:108-112): the document is
dumped under the top-level `manifest` key.  Encoding the structured document to
YAML text and back is the collaborator's concern (spec §1) and is modelled as
storing the structured document itself. -/
def Manifest.save (m : Manifest) : FileContent :=
  .doc (some { main := some (dumpProject m.main),
               defaults := some (dumpDefaults m.defaults),
               remotes := some (m.remotes.map dumpRemote),
               projects := some (m.projects.map dumpProject) })

/-- `path.write_text(...)` on the modelled filesystem: the file at `path` now
holds `c`, every other path is unchanged. -/
def storeAt (fs : String → Option FileContent) (path : String) (c : FileContent) :
    String → Option FileContent :=
  fun q => if q = path then some c else fs q

/-- A declaration passes pydantic validation (used as the hypothesis "valid
ProjectDeclaration" of the spec: validation runs at parse time, so resolution
and round-trip treat declarations as pre-validated, §4.1). -/
def Project.valid (p : Project) : Prop := p.remote_or_url = .ok ()

/-- A manifest whose declarations all passed validation, as every manifest
constructed by pydantic has (§4.1). -/
def Manifest.valid (m : Manifest) : Prop :=
  m.main.valid ∧ ∀ p ∈ m.projects, p.valid

/-- Boolean prefix test on character lists (structural replacement for
`String.startsWith`, which does not reduce in the kernel). -/
def isPrefixList : List Char → List Char → Bool
  | [], _ => true
  | _ :: _, [] => false
  | a :: as, b :: bs => a == b && isPrefixList as bs

/-- `s.startsWith pre` on the character-list representation. -/
def strStartsWith (s pre : String) : Bool :=
  isPrefixList pre.data s.data

/-- Split a character list at `/` (structural replacement for
`String.splitOn "/"`). -/
def splitSlash : List Char → List (List Char)
  | [] => [[]]
  | ch :: rest =>
      match splitSlash rest with
      | [] => [[]]
      | seg :: segs => if ch == '/' then [] :: seg :: segs else (ch :: seg) :: segs

/-- The `/`-separated segments of a string. -/
def splitOnSlash (s : String) : List String :=
  (splitSlash s.data).map String.mk

/-- Join segments with `/` (structural replacement for
`String.intercalate "/"`). -/
def joinSlash : List String → String
  | [] => ""
  | [s] => s
  | s :: rest => s ++ "/" ++ joinSlash rest

/-- Modelled from the spec: a URL "begins with a relative path segment such as
`../`" (§4.3 refURL rewriting). -/
def isRelativeUrl (u : String) : Bool :=
  strStartsWith u "../" || strStartsWith u "./"

/-- Normalize a segment list: `..` drops the previously kept segment, `.` is
skipped, everything else is kept.  The accumulator holds the kept segments in
reverse order. -/
def normSegments : List String → List String → List String
  | [], acc => acc.reverse
  | ".." :: rest, acc => normSegments rest (acc.drop 1)
  | "." :: rest, acc => normSegments rest acc
  | s :: rest, acc => normSegments rest (s :: acc)

/-- Modelled from the spec: the "standard URL/path join semantics" of §4.3,
pinned by the spec's example `../dep4` against `https://example.com/base/dep1`
giving `https://example.com/base/dep4`: the relative URL's segments are appended
to the reference URL's segments and `..`/`.` segments are normalized away. -/
def urljoin (base rel : String) : String :=
  joinSlash (normSegments (splitOnSlash base ++ splitOnSlash rel) [])

/-- Modelled from the spec: `Project.from_spec(defaults, remotes, spec, refurl)`
(called at src/anyrepo/iters.py:90; the function itself lives outside src/).
Per §4.3 it resolves the declaration exactly as `ResolvedProject.from_project`
and then applies refURL rewriting: when the caller supplied a reference URL and
the resolved or explicit URL is relative, the final URL is the relative
reference joined against the reference URL. -/
def ResolvedProject.from_spec (defaults : Defaults) (remotes : List Remote)
    (spec : Project) (refurl : Option String) : Except String ResolvedProject :=
  match ResolvedProject.from_project defaults remotes spec with
  | .error e => .error e
  | .ok dep =>
      match refurl, dep.url with
      | some r, some u =>
          if isRelativeUrl u then .ok { dep with url := some (urljoin r u) }
          else .ok dep
      | _, _ => .ok dep

/-- Modelled from the spec: the workspace accessor collaborator (§6).  `path` is
the workspace root directory; `infoMainPath` is the main project's path relative
to the root (`workspace.info.main_path`). -/
structure Workspace where
  path : String
  infoMainPath : String

/-- `workspace.main_path`: the main project's directory, workspace root joined
with the relative main path. -/
def Workspace.main_path (ws : Workspace) : String :=
  ws.path ++ "/" ++ ws.infoMainPath

/-- `Path.name`: the final component of a `/`-separated path. -/
def baseName (s : String) : String :=
  ((splitOnSlash s).getLast?).getD s

/-- The workspace filesystem seen by the traversals: a finite association list
from manifest file path to the manifest parsed from that file.  It models
`dep_manifest_path.exists()` (lookup succeeds) together with `ManifestSpec.load`
(the parsed document) on the already-parsed view used throughout the traversal
claims. -/
abbrev GraphFS := List (String × Manifest)

/-- First-match lookup of a manifest file. -/
def GraphFS.find : GraphFS → String → Option Manifest
  | [], _ => none
  | (k, m) :: rest, key => if k = key then some m else GraphFS.find rest key

/-- Modelled from the spec: the dedup/path key of a declaration, its `path` if
set else its `name` ("workspace root ⧺ declaration path-or-name", §4.4).  This
is the `path` that `Manifest.from_spec` resolves into `dep_project.path`
(src/anyrepo/iters.py:37,41) and equals the `path` rule of
`ResolvedProject.from_project`. -/
def depKey (p : Project) : String := pyOrS p.path p.name

/-- Modelled from the spec: the expected manifest file name inside a project
directory (`dep_project.manifest_path`, whose default is declared outside
src/). -/
def manifestFile : String := "anyrepo.toml"

/-- Errors of the fueled traversal runs.  `fuelOut` signals exhausted fuel (the
Python generators have no such case; the termination results show sufficient
fuel never produces it), `manifestNotFoundError` models `ManifestSpec.load`
raising on a missing file, `valueError` models `Project.from_spec` raising. -/
inductive IterErr where
  | fuelOut
  | manifestNotFoundError (path : String)
  | valueError (msg : String)
deriving DecidableEq

/-- The scan phase of `ManifestIter.__iter` (src/anyrepo/iters.py:35-48): walk
the dependency declarations in document order, skip paths already in `done`,
append fresh paths to `done`, and collect `(dep_project_path,
dep_manifest_path)` pairs whose manifest file exists as pending children.
Returns the pending children in order together with the grown `done` list. -/
def ManifestIter.scan (fs : GraphFS) (wsPath : String) :
    List Project → List String → List (String × String) × List String
  | [], done => ([], done)
  | dep :: rest, done =>
      if depKey dep ∈ done then ManifestIter.scan fs wsPath rest done
      else
        let done' := done ++ [depKey dep]
        let depProjectPath := wsPath ++ "/" ++ depKey dep
        let depManifestPath := depProjectPath ++ "/" ++ manifestFile
        let r := ManifestIter.scan fs wsPath rest done'
        if (GraphFS.find fs depManifestPath).isSome then
          ((depProjectPath, depManifestPath) :: r.1, r.2)
        else r

/-- Embeds the recursive generator `ManifestIter.__iter`
(src/anyrepo/iters.py:26-52).  The generator recursion is linearized into an
explicit pending work list: the source yields the current manifest, scans its
dependencies into `deps`, then recurses into each pending child in order with
the shared `done` list; processing the head item and pushing its pending
children in front of the remaining work list reproduces exactly that
depth-first order and `done` threading.  `fuel` bounds the number of manifests
processed. -/
def ManifestIter.go (fs : GraphFS) (wsPath : String) :
    Nat → List (String × String) → List String →
    Except IterErr (List (String × Manifest) × List String)
  | _, [], done => .ok ([], done)
  | 0, _ :: _, _ => .error .fuelOut
  | Nat.succ fuel, item :: rest, done =>
      match GraphFS.find fs item.2 with
      | none => .error (.manifestNotFoundError item.2)
      | some spec =>
          let sc := ManifestIter.scan fs wsPath spec.dependencies done
          match ManifestIter.go fs wsPath fuel (sc.1 ++ rest) sc.2 with
          | .error e => .error e
          | .ok (out, done') => .ok ((item.2, spec) :: out, done')

/-- Embeds `ManifestIter.__iter__` (src/anyrepo/iters.py:23-24): traversal
starts at `(workspace.main_path, manifest_path)` with an empty `done` list. -/
def ManifestIter.run (fs : GraphFS) (ws : Workspace) (manifestPath : String)
    (fuel : Nat) : Except IterErr (List (String × Manifest) × List String) :=
  ManifestIter.go fs ws.path fuel [(ws.main_path, manifestPath)] []

/-- The scan phase of `ProjectIter.__iter` (src/anyrepo/iters.py:89-106):
resolve each declaration via `Project.from_spec`, skip resolved paths already in
`done`, append fresh paths to `done` and yield the resolved project, then load
the dependant's own manifest tolerating absence (`ManifestSpec.load(...,
default=_MANIFEST_DEFAULT)`, modelled from spec §4.2 LoadOrDefault as lookup
with default) and queue it for recursion when it differs from the canonical
empty manifest.  Returns (yields, pending children, grown done list). -/
def ProjectIter.scan (fs : GraphFS) (wsPath : String) (refurl : Option String)
    (defaults : Defaults) (remotes : List Remote) :
    List Project → List String →
    Except IterErr (List ResolvedProject × List (String × Manifest) × List String)
  | [], done => .ok ([], [], done)
  | spec :: rest, done =>
      match ResolvedProject.from_spec defaults remotes spec refurl with
      | .error e => .error (.valueError e)
      | .ok dep =>
          if dep.path ∈ done then
            ProjectIter.scan fs wsPath refurl defaults remotes rest done
          else
            let done' := done ++ [dep.path]
            let depProjectPath := wsPath ++ "/" ++ dep.path
            let depManifest := (GraphFS.find fs (depProjectPath ++ "/" ++ manifestFile)).getD {}
            match ProjectIter.scan fs wsPath refurl defaults remotes rest done' with
            | .error e => .error e
            | .ok (ys, pending, done'') =>
                if depManifest = {} then .ok (dep :: ys, pending, done'')
                else .ok (dep :: ys, (depProjectPath, depManifest) :: pending, done'')

/-- Embeds the recursive generator `ProjectIter.__iter`
(src/anyrepo/iters.py:78-110), linearized into an explicit pending work list
exactly as `ManifestIter.go`.  Each work item carries the project path (used for
`refurl` when `resolve_url` is set, obtained from the version-control adapter
`geturl`) and its already-loaded manifest. -/
def ProjectIter.go (fs : GraphFS) (ws : Workspace) (resolveUrl : Bool)
    (geturl : String → String) :
    Nat → List (String × Manifest) → List String →
    Except IterErr (List ResolvedProject × List String)
  | _, [], done => .ok ([], done)
  | 0, _ :: _, _ => .error .fuelOut
  | Nat.succ fuel, item :: rest, done =>
      let refurl := if resolveUrl then some (geturl item.1) else none
      match ProjectIter.scan fs ws.path refurl item.2.defaults item.2.remotes item.2.dependencies done with
      | .error e => .error e
      | .ok (ys, pending, done₁) =>
          match ProjectIter.go fs ws resolveUrl geturl fuel (pending ++ rest) done₁ with
          | .error e => .error e
          | .ok (out, done₂) => .ok (ys ++ out, done₂)

/-- Embeds `ProjectIter.__iter__` (src/anyrepo/iters.py:67-76): unless
`skip_main` is set, the main project (name `info.main_path.name`, path
`str(info.main_path)`) is yielded first; then the root manifest is loaded with
an empty default and the recursion starts at `workspace.main_path`. -/
def ProjectIter.run (fs : GraphFS) (ws : Workspace) (manifestPath : String)
    (skipMain resolveUrl : Bool) (geturl : String → String) (fuel : Nat) :
    Except IterErr (List ResolvedProject × List String) :=
  let manifest := (GraphFS.find fs manifestPath).getD {}
  match ProjectIter.go fs ws resolveUrl geturl fuel [(ws.main_path, manifest)] [] with
  | .error e => .error e
  | .ok (out, done) =>
      if skipMain then .ok (out, done)
      else .ok ({ name := baseName ws.infoMainPath, path := ws.infoMainPath } :: out, done)

/-- The end-to-end fixture of src/tests/fixtures.py:24-72, as the workspace
filesystem after cloning: the root manifest declares `dep1` (no revision) and
`dep2` (revision "1-feature"), `dep1`'s manifest declares `dep4`, `dep2`'s
manifest declares `dep3` and `dep4`; `dep3` and `dep4` have no manifest file. -/
def fsC1 : GraphFS :=
  [ ("ws/main/anyrepo.toml",
     { projects := [ { name := "dep1", url := some "../dep1" },
                     { name := "dep2", url := some "../dep2", revision := some "1-feature" } ] }),
    ("ws/dep1/anyrepo.toml",
     { projects := [ { name := "dep4", url := some "../dep4" } ] }),
    ("ws/dep2/anyrepo.toml",
     { projects := [ { name := "dep3", url := some "../dep3" },
                     { name := "dep4", url := some "../dep4" } ] }) ]

/-- Workspace with root `ws` and main project checked out at `ws/main`. -/
def wsC1 : Workspace := { path := "ws", infoMainPath := "main" }

/-- A manifest graph in which the path `main` — the main project's own path —
is reachable via two distinct declaration chains: the root manifest declares it
directly and `dep1`'s manifest declares it again. -/
def fsDup : GraphFS :=
  [ ("ws/main/anyrepo.toml", { projects := [ { name := "dep1" }, { name := "main" } ] }),
    ("ws/dep1/anyrepo.toml", { projects := [ { name := "main" } ] }) ]

/-- A filesystem with a single manifest file whose content is a mapping but
whose `manifest.projects` entry lacks the required `name` field. -/
def fsBadC6 : String → Option FileContent :=
  fun q => if q = "ws/main/anyrepo.toml" then some (.doc (some { projects := some [ {} ] })) else none

/-- All dependency keys declared anywhere in the workspace filesystem: the
finite universe the traversals' `done` lists draw from. -/
def allKeys (fs : GraphFS) : List String :=
  (fs.map (fun e => e.2.dependencies.map depKey)).flatten

/-- The manifest file path of a project with dedup key `k`: workspace root,
key, manifest file name. -/
def encM (wsPath k : String) : String :=
  wsPath ++ "/" ++ k ++ "/" ++ manifestFile

/-- The number of declared keys not yet visited: the strictly decreasing
measure that makes every traversal terminate. -/
def countFresh (fs : GraphFS) (done : List String) : Nat :=
  ((allKeys fs).dedup.filter (fun k => decide (k ∉ done))).length

/-- A concrete manifest with every field populated, used to exhibit the
save/load round trip. -/
def mC7 : Manifest :=
  { main := { name := "main" },
    defaults := { remote := some "origin", revision := some "main" },
    remotes := [ { name := "origin", url_base := some "https://example.com/base" } ],
    projects := [ { name := "dep1", remote := some "origin" },
                  { name := "dep2", url := some "../dep2", revision := some "1-feature",
                    path := some "sub/dep2" } ] }

theorem from_project_ok_iff {d : Defaults} {rs : List Remote} {p : Project}
    {r : ResolvedProject} :
    ResolvedProject.from_project d rs p = .ok r ↔
      ∃ url, assembleUrl d rs p = .ok url ∧
        r = { name := p.name, path := pyOrS p.path p.name, url := url,
              revision := pyOr p.revision d.revision } := by
  unfold ResolvedProject.from_project
  cases h : assembleUrl d rs p <;> simp [h, eq_comm]

theorem from_project_error_iff {d : Defaults} {rs : List Remote} {p : Project}
    {e : String} :
    ResolvedProject.from_project d rs p = .error e ↔ assembleUrl d rs p = .error e := by
  unfold ResolvedProject.from_project
  cases h : assembleUrl d rs p <;> simp [h]

theorem assembleUrl_remote_found {d : Defaults} {rs : List Remote} {p : Project}
    {er : String} {rem : Remote} (hurl : pyTruthy p.url = false)
    (her : pyOr p.remote d.remote = some er) (hne : er ≠ "")
    (hfind : rs.find? (fun x => x.name == er) = some rem) :
    assembleUrl d rs p = .ok (some (pyStr rem.url_base ++ "/" ++ pyOrS p.sub_url p.name)) := by
  unfold assembleUrl
  rw [hurl, her]
  simp [pyTruthy, hne, hfind]

theorem assembleUrl_remote_missing {d : Defaults} {rs : List Remote} {p : Project}
    {er : String} (hurl : pyTruthy p.url = false)
    (her : pyOr p.remote d.remote = some er) (hne : er ≠ "")
    (hfind : rs.find? (fun x => x.name == er) = none) :
    assembleUrl d rs p =
      .error ("Unknown remote " ++ pyStr p.remote ++ " for project " ++ p.name) := by
  unfold assembleUrl
  rw [hurl, her]
  simp [pyTruthy, hne, hfind]

/-- C4: for every `Defaults`, remote list and valid declaration that resolution
accepts, the resolved `path` is the declaration's (non-empty) path if set else
its name, the resolved `revision` is the declaration's (non-empty) revision if
set else the defaults' revision, and when the declaration has no explicit url
but a (non-empty) effective remote matched by the first alias of that name with
a set `url_base`, the resolved url is the alias's `url_base`, a slash, and the
declaration's sub_url-or-name. -/
theorem c4_resolution_fields (d : Defaults) (rs : List Remote) (p : Project)
    (r : ResolvedProject)
    (hok : ResolvedProject.from_project d rs p = .ok r) :
    ((p.path = none → r.path = p.name)
      ∧ (∀ s, s ≠ "" → p.path = some s → r.path = s))
    ∧ ((p.revision = none → r.revision = d.revision)
      ∧ (∀ s, s ≠ "" → p.revision = some s → r.revision = some s))
    ∧ (∀ er rem b, p.url = none → pyOr p.remote d.remote = some er → er ≠ "" →
        rs.find? (fun x => x.name == er) = some rem → rem.url_base = some b →
        ((p.sub_url = none → r.url = some (b ++ "/" ++ p.name))
          ∧ (∀ su, su ≠ "" → p.sub_url = some su → r.url = some (b ++ "/" ++ su)))) := by
  obtain ⟨url, hasm, hr⟩ := from_project_ok_iff.mp hok
  subst hr
  refine ⟨⟨?_, ?_⟩, ⟨?_, ?_⟩, ?_⟩
  · intro h; simp [pyOrS, h]
  · intro s hs h; simp [pyOrS, h, hs]
  · intro h; simp [pyOr, pyTruthy, h]
  · intro s hs h; simp [pyOr, pyTruthy, h, hs]
  · intro er rem b hurl her hne hfind hbase
    have hf : pyTruthy p.url = false := by simp [pyTruthy, hurl]
    have := assembleUrl_remote_found hf her hne hfind
    rw [this] at hasm
    cases hasm
    constructor
    · intro h; simp [pyOrS, h, hbase, pyStr]
    · intro su hsu h; simp [pyOrS, h, hsu, hbase, pyStr]

/-- Witness for C4 at the spec's concrete example: remote "origin" with
url_base `https://example.com/base` and name `dep1`, no sub_url, resolves to
`https://example.com/base/dep1`. -/
theorem c4_resolution_fields_witness :
    ({ name := "dep1", path := "dep1",
       url := some "https://example.com/base/dep1" } : ResolvedProject).url =
      some ("https://example.com/base" ++ "/" ++ "dep1") := by
  have h := c4_resolution_fields {}
    [ { name := "origin", url_base := some "https://example.com/base" } ]
    { name := "dep1", remote := some "origin" }
    { name := "dep1", path := "dep1", url := some "https://example.com/base/dep1" }
    (by decide)
  exact (h.2.2 "origin" { name := "origin", url_base := some "https://example.com/base" }
    "https://example.com/base" rfl (by decide) (by decide) (by decide) rfl).1 rfl

/-- C5 counterexample: with `defaults.remote = "org"`, an empty remote list and
a declaration with no own `remote`, resolution fails — but the raised error is
a `ValueError` whose message names the declaration's own remote field rendered
as `None`, not the effective remote name `org` (and no `UnknownRemoteError`
class exists in src/anyrepo/exceptions.py). -/
theorem c5_counterexample :
    ResolvedProject.from_project { remote := some "org" } [] { name := "dep1" } =
      .error "Unknown remote None for project dep1" := by decide

/-- C5 as amended: with no explicit url and a non-empty effective remote,
resolution fails exactly when no alias matches — raising a `ValueError` whose
message names the declaration's own `remote` field (rendered `None` when the
effective remote came from the defaults) and the project name — and succeeds
whenever a matching alias exists. -/
theorem c5_unknown_remote_amended (d : Defaults) (rs : List Remote) (p : Project)
    (er : String) (hurl : p.url = none) (her : pyOr p.remote d.remote = some er)
    (hne : er ≠ "") :
    (rs.find? (fun x => x.name == er) = none →
      ResolvedProject.from_project d rs p =
        .error ("Unknown remote " ++ pyStr p.remote ++ " for project " ++ p.name))
    ∧ (∀ rem, rs.find? (fun x => x.name == er) = some rem →
        ∃ r, ResolvedProject.from_project d rs p = .ok r) := by
  have hf : pyTruthy p.url = false := by simp [pyTruthy, hurl]
  constructor
  · intro hfind
    exact from_project_error_iff.mpr (assembleUrl_remote_missing hf her hne hfind)
  · intro rem hfind
    exact ⟨_, from_project_ok_iff.mpr
      ⟨_, assembleUrl_remote_found hf her hne hfind, rfl⟩⟩

theorem c5_unknown_remote_amended_witness :
    ResolvedProject.from_project { remote := some "org" }
        [ { name := "other" } ] { name := "dep1" } =
      .error "Unknown remote None for project dep1" := by
  have h := (c5_unknown_remote_amended { remote := some "org" }
    [ { name := "other" } ] { name := "dep1" } "org" rfl (by decide)
    (by decide)).1 (by decide)
  simpa [pyStr] using h

/-- C8: with a falsy `sub_url`, construction succeeds exactly when `remote` and
`url` are not both truthy; a truthy `sub_url` without truthy `remote` always
fails; truthy `remote` together with truthy `url` always fails. -/
theorem c8_validation_rules (p : Project) :
    (pyTruthy p.sub_url = false →
      (p.remote_or_url = .ok () ↔ ¬(pyTruthy p.remote = true ∧ pyTruthy p.url = true)))
    ∧ (pyTruthy p.sub_url = true → pyTruthy p.remote = false → p.remote_or_url ≠ .ok ())
    ∧ (pyTruthy p.remote = true → pyTruthy p.url = true → p.remote_or_url ≠ .ok ()) := by
  unfold Project.remote_or_url
  cases hr : pyTruthy p.remote <;> cases hu : pyTruthy p.url <;>
    cases hs : pyTruthy p.sub_url <;> simp

theorem c8_validation_rules_witness :
    ({ name := "x", url := some "u" } : Project).remote_or_url = .ok () := by
  exact ((c8_validation_rules { name := "x", url := some "u" }).1 (by decide)).mpr
    (by decide)

/-- C10: the validation rules fire only on non-empty strings, so a declaration
with `remote=""` together with a non-empty `url` passes, and a declaration with
`sub_url=""` and no remote passes. -/
theorem c10_empty_string_validation (n u : String) (_hu : u ≠ "") :
    ({ name := n, remote := some "", url := some u } : Project).remote_or_url = .ok ()
    ∧ ({ name := n, sub_url := some "" } : Project).remote_or_url = .ok () := by
  refine ⟨?_, ?_⟩
  · simp [Project.remote_or_url, pyTruthy]
  · simp [Project.remote_or_url, pyTruthy]

theorem c10_empty_string_validation_witness :
    ({ name := "dep1", remote := some "", url := some "https://example.com/x" } : Project).remote_or_url = .ok ()
    ∧ ({ name := "dep1", sub_url := some "" } : Project).remote_or_url = .ok () :=
  c10_empty_string_validation "dep1" "https://example.com/x" (by decide)

/-- C1: on the end-to-end fixture the Project Walker with skip_main=false
yields exactly, in order: main, dep1, dep2, dep4 (first discovered via dep1, so
dep2's later reference to dep4 is skipped), dep3 — with dep2's revision equal to
"1-feature" and every other yielded project's revision absent. -/
theorem c1_project_walker_end_to_end :
    ProjectIter.run fsC1 wsC1 "ws/main/anyrepo.toml" false false (fun _ => "") 10 =
      .ok ([ { name := "main", path := "main" },
             { name := "dep1", path := "dep1", url := some "../dep1" },
             { name := "dep2", path := "dep2", url := some "../dep2",
               revision := some "1-feature" },
             { name := "dep4", path := "dep4", url := some "../dep4" },
             { name := "dep3", path := "dep3", url := some "../dep3" } ],
           ["dep1", "dep2", "dep4", "dep3"]) := by decide

/-- C9: when a reference URL is supplied and the declaration's explicit or
resolved URL — the `url` field of the `ResolvedProject` that
`ResolvedProject.from_project` produces, whether taken verbatim from the
declaration or assembled from the matched remote alias — is relative, the final
URL produced by `Project.from_spec` is that relative URL joined against the
reference URL. -/
theorem c9_refurl_join (d : Defaults) (rs : List Remote) (p : Project)
    (R u : String) (dep r : ResolvedProject)
    (hfp : ResolvedProject.from_project d rs p = .ok dep)
    (hu : dep.url = some u)
    (hrel : isRelativeUrl u = true)
    (hok : ResolvedProject.from_spec d rs p (some R) = .ok r) :
    r.url = some (urljoin R u) := by
  unfold ResolvedProject.from_spec at hok
  rw [hfp] at hok
  have hok' : (match some R, dep.url with
      | some rr, some uu =>
          if isRelativeUrl uu then Except.ok { dep with url := some (urljoin rr uu) }
          else Except.ok dep
      | _, _ => (Except.ok dep : Except String ResolvedProject)) = .ok r := hok
  rw [hu] at hok'
  simp only [hrel, if_true] at hok'
  cases hok'
  rfl

/-- Witness for C9 on both rewriting branches.  Explicit branch, the spec's
example: a declaration with explicit url `../dep4` resolved against refURL
`https://example.com/base/dep1` ends at `https://example.com/base/dep4`.
Resolved branch: a declaration with remote `origin` whose alias has the
relative url_base `../base` is assembled to `../base/dep4` and then joined
against refURL `https://example.com/root/main`, ending at
`https://example.com/root/base/dep4`. -/
theorem c9_refurl_join_witness :
    (urljoin "https://example.com/base/dep1" "../dep4" = "https://example.com/base/dep4"
      ∧ ({ name := "dep4", path := "dep4",
           url := some "https://example.com/base/dep4" } : ResolvedProject).url =
          some (urljoin "https://example.com/base/dep1" "../dep4"))
    ∧ (urljoin "https://example.com/root/main" "../base/dep4" =
          "https://example.com/root/base/dep4"
      ∧ ({ name := "dep4", path := "dep4",
           url := some "https://example.com/root/base/dep4" } : ResolvedProject).url =
          some (urljoin "https://example.com/root/main" "../base/dep4")) := by
  refine ⟨⟨by decide, ?_⟩, ⟨by decide, ?_⟩⟩
  · exact c9_refurl_join {} [] { name := "dep4", url := some "../dep4" }
      "https://example.com/base/dep1" "../dep4"
      { name := "dep4", path := "dep4", url := some "../dep4" }
      { name := "dep4", path := "dep4", url := some "https://example.com/base/dep4" }
      (by decide) rfl (by decide) (by decide)
  · exact c9_refurl_join {} [ { name := "origin", url_base := some "../base" } ]
      { name := "dep4", remote := some "origin" }
      "https://example.com/root/main" "../base/dep4"
      { name := "dep4", path := "dep4", url := some "../base/dep4" }
      { name := "dep4", path := "dep4",
        url := some "https://example.com/root/base/dep4" }
      (by decide) rfl (by decide) (by decide)

/-- C6 counterexample: a file that exists but whose `manifest.projects` entry is
structurally invalid (missing `name`) makes `Manifest.load` surface the
unwrapped pydantic validation error — not `ManifestError(path, details)` as the
claim states. -/
theorem c6_counterexample :
    Manifest.load fsBadC6 "ws/main/anyrepo.toml" =
      .error (.validationError "field required: name") := by decide

/-- C6 as amended: a missing file raises `ManifestNotFoundError(path)`; a file
that exists but does not deserialize surfaces the underlying error unwrapped —
a YAML parse error, an `AttributeError` from `data.get` on a non-mapping, or
the pydantic validation error — and `Manifest.load` never raises
`ManifestError`; a valid document loads successfully. -/
theorem c6_load_errors_amended (fs : String → Option FileContent) (path : String) :
    (fs path = none → Manifest.load fs path = .error (.manifestNotFoundError path))
    ∧ (fs path = some .invalidYaml → Manifest.load fs path = .error .yamlError)
    ∧ (fs path = some .nonMapping → Manifest.load fs path = .error .attributeError)
    ∧ (∀ rm e, fs path = some (.doc rm) → parseManifest (rm.getD {}) = .error e →
        Manifest.load fs path = .error (.validationError e))
    ∧ (∀ rm doc, fs path = some (.doc rm) → parseManifest (rm.getD {}) = .ok doc →
        Manifest.load fs path = .ok doc)
    ∧ (∀ q dtl, Manifest.load fs path ≠ .error (.manifestError q dtl)) := by
  unfold Manifest.load
  refine ⟨?_, ?_, ?_, ?_, ?_, ?_⟩
  · intro h; rw [h]
  · intro h; rw [h]
  · intro h; rw [h]
  · intro rm e h hp; rw [h]; simp only [hp]
  · intro rm doc h hp; rw [h]; simp only [hp]
  · intro q dtl hcontra
    rcases hfp : fs path with _ | c
    · rw [hfp] at hcontra; simp at hcontra
    · rcases c with _ | _ | rm <;> rw [hfp] at hcontra
      · simp at hcontra
      · simp at hcontra
      · rcases hp : parseManifest (rm.getD {}) with e | doc <;>
          simp [hp] at hcontra

theorem c6_load_errors_amended_witness :
    Manifest.load fsBadC6 "nosuchfile" = .error (.manifestNotFoundError "nosuchfile") :=
  (c6_load_errors_amended fsBadC6 "nosuchfile").1 (by decide)

theorem parseProject_dumpProject {p : Project} (hv : p.remote_or_url = .ok ()) :
    parseProject (dumpProject p) = .ok p := by
  show (match p.remote_or_url with
        | .error e => .error e
        | .ok _ => .ok p : Except String Project) = .ok p
  rw [hv]

theorem parseRemote_dumpRemote (r : Remote) : parseRemote (dumpRemote r) = .ok r := rfl

theorem mapExcept_map_ok {α β : Type} {f : α → Except String β} {g : β → α}
    {l : List β} (h : ∀ b ∈ l, f (g b) = .ok b) : mapExcept f (l.map g) = .ok l := by
  induction l with
  | nil => rfl
  | cons b rest ih =>
      simp only [List.map_cons, mapExcept]
      rw [h b (by simp), ih (fun x hx => h x (by simp [hx]))]

theorem parseManifest_save_raw (m : Manifest)
    (hmain : m.main.remote_or_url = .ok ())
    (hprojects : ∀ p ∈ m.projects, p.remote_or_url = .ok ()) :
    parseManifest { main := some (dumpProject m.main),
                    defaults := some (dumpDefaults m.defaults),
                    remotes := some (m.remotes.map dumpRemote),
                    projects := some (m.projects.map dumpProject) } = .ok m := by
  show (match parseProject (dumpProject m.main) with
        | .error e => .error e
        | .ok main =>
            match mapExcept parseRemote (m.remotes.map dumpRemote) with
            | .error e => .error e
            | .ok remotes =>
                match mapExcept parseProject (m.projects.map dumpProject) with
                | .error e => .error e
                | .ok projects =>
                    Except.ok { main := main,
                                defaults := parseDefaults (dumpDefaults m.defaults),
                                remotes := remotes, projects := projects }
        : Except String Manifest) = .ok m
  rw [parseProject_dumpProject hmain,
    mapExcept_map_ok (fun r _ => parseRemote_dumpRemote r),
    mapExcept_map_ok (fun p hp => parseProject_dumpProject (hprojects p hp))]
  rfl

/-- C7: saving a manifest document and loading it back from the same path
reproduces the document: omitted-`None` fields come back as their defaults and
every populated field round-trips, for any document whose declarations pass
validation (as every pydantic-constructed document's do). -/
theorem c7_save_load_roundtrip (fs : String → Option FileContent) (path : String)
    (m : Manifest) (hmain : m.main.remote_or_url = .ok ())
    (hprojects : ∀ p ∈ m.projects, p.remote_or_url = .ok ()) :
    Manifest.load (storeAt fs path m.save) path = .ok m := by
  unfold Manifest.load
  rw [show storeAt fs path m.save path = some m.save from by unfold storeAt; simp]
  show (match parseManifest { main := some (dumpProject m.main),
                              defaults := some (dumpDefaults m.defaults),
                              remotes := some (m.remotes.map dumpRemote),
                              projects := some (m.projects.map dumpProject) } with
        | .error e => Except.error (LoadErr.validationError e)
        | .ok doc => Except.ok doc) = .ok m
  rw [parseManifest_save_raw m hmain hprojects]

theorem c7_save_load_roundtrip_witness :
    Manifest.load (storeAt (fun _ => none) "ws/main/anyrepo.toml" mC7.save)
        "ws/main/anyrepo.toml" = .ok mC7 :=
  c7_save_load_roundtrip (fun _ => none) "ws/main/anyrepo.toml" mC7
    (by decide) (by decide)

theorem ProjectIter.scan_paths_spec (fs : GraphFS) (wsPath : String) (refurl : Option String)
    (df : Defaults) (rs : List Remote) :
    ∀ (specs : List Project) (done ys : List _) (pending : List (String × Manifest))
      (done' : List String),
      ProjectIter.scan fs wsPath refurl df rs specs done = .ok (ys, pending, done') →
      done' = done ++ ys.map ResolvedProject.path ∧ (done.Nodup → done'.Nodup) := by
  intro specs
  induction specs with
  | nil =>
      intro done ys pending done' h
      simp only [ProjectIter.scan, Except.ok.injEq, Prod.mk.injEq] at h
      obtain ⟨h1, _, h3⟩ := h
      subst h1; subst h3
      simp
  | cons spec rest ih =>
      intro done ys pending done' h
      simp only [ProjectIter.scan] at h
      split at h
      · exact Except.noConfusion h
      · rename_i dep _
        split at h
        · exact ih done ys pending done' h
        · rename_i hmem
          split at h
          · exact Except.noConfusion h
          · rename_i ys' pending' done'' hrec
            obtain ⟨h1, h2⟩ := ih (done ++ [dep.path]) ys' pending' done'' hrec
            have hnd1 : done.Nodup → (done ++ [dep.path]).Nodup := by
              intro hnd
              simp [List.nodup_append, hnd, hmem]
            have hgoal : ys = dep :: ys' ∧ done' = done'' := by
              split at h <;>
                (simp only [Except.ok.injEq, Prod.mk.injEq] at h
                 exact ⟨h.1.symm, h.2.2.symm⟩)
            obtain ⟨hys, hdn⟩ := hgoal
            subst hys; subst hdn
            refine ⟨?_, fun hnd => h2 (hnd1 hnd)⟩
            rw [h1]
            simp [List.append_assoc]

theorem ProjectIter.go_paths_spec (fs : GraphFS) (ws : Workspace) (ru : Bool)
    (g : String → String) :
    ∀ (fuel : Nat) (P : List (String × Manifest)) (done : List String)
      (out : List ResolvedProject) (done' : List String),
      ProjectIter.go fs ws ru g fuel P done = .ok (out, done') →
      done' = done ++ out.map ResolvedProject.path ∧ (done.Nodup → done'.Nodup) := by
  intro fuel
  induction fuel with
  | zero =>
      intro P done out done' h
      cases P with
      | nil =>
          simp only [ProjectIter.go, Except.ok.injEq, Prod.mk.injEq] at h
          obtain ⟨h1, h2⟩ := h
          subst h1; subst h2
          simp
      | cons item rest =>
          simp only [ProjectIter.go] at h
          exact Except.noConfusion h
  | succ fuel ih =>
      intro P done out done' h
      cases P with
      | nil =>
          simp only [ProjectIter.go, Except.ok.injEq, Prod.mk.injEq] at h
          obtain ⟨h1, h2⟩ := h
          subst h1; subst h2
          simp
      | cons item rest =>
          simp only [ProjectIter.go] at h
          split at h
          · exact Except.noConfusion h
          · rename_i ys pending done₁ hsc
            split at h
            · exact Except.noConfusion h
            · rename_i out₂ done₂ hrec
              simp only [Except.ok.injEq, Prod.mk.injEq] at h
              obtain ⟨hout, hdone⟩ := h
              subst hout; subst hdone
              obtain ⟨hs1, hs2⟩ :=
                ProjectIter.scan_paths_spec fs ws.path _ _ _ _ done ys pending done₁ hsc
              obtain ⟨hg1, hg2⟩ := ih (pending ++ rest) done₁ out₂ done₂ hrec
              constructor
              · simp [hg1, hs1, List.append_assoc]
              · intro hnd
                exact hg2 (hs2 hnd)

theorem string_data_inj {a b : String} (h : a.data = b.data) : a = b := by
  cases a; cases b; exact congrArg String.mk h

theorem string_append_cancel_left {a b c : String} (h : a ++ b = a ++ c) : b = c := by
  have hd : (a ++ b).data = (a ++ c).data := by rw [h]
  rw [String.data_append, String.data_append] at hd
  exact string_data_inj (List.append_cancel_left hd)

theorem string_append_cancel_right {a b c : String} (h : a ++ c = b ++ c) : a = b := by
  have hd : (a ++ c).data = (b ++ c).data := by rw [h]
  rw [String.data_append, String.data_append] at hd
  exact string_data_inj (List.append_cancel_right hd)

theorem encM_injective (wsPath : String) : Function.Injective (encM wsPath) := by
  intro k₁ k₂ h
  unfold encM at h
  exact string_append_cancel_left
    (string_append_cancel_right (string_append_cancel_right h))

theorem GraphFS.find_mem : ∀ {fs : GraphFS} {key : String} {m : Manifest},
    GraphFS.find fs key = some m → (key, m) ∈ fs := by
  intro fs
  induction fs with
  | nil => intro key m h; exact Option.noConfusion h
  | cons e rest ih =>
      intro key m h
      obtain ⟨k, mm⟩ := e
      simp only [GraphFS.find] at h
      split at h
      · rename_i heq
        cases h
        subst heq
        exact List.mem_cons_self _ _
      · exact List.mem_cons_of_mem _ (ih h)

theorem mem_allKeys {fs : GraphFS} {key : String} {m : Manifest} {d : Project}
    (hmem : (key, m) ∈ fs) (hd : d ∈ m.dependencies) : depKey d ∈ allKeys fs := by
  unfold allKeys
  rw [List.mem_flatten]
  refine ⟨m.dependencies.map depKey, ?_, List.mem_map_of_mem _ hd⟩
  rw [List.mem_map]
  exact ⟨(key, m), hmem, rfl⟩

theorem ManifestIter.scan_cons_mem {fs : GraphFS} {wsPath : String} {dep : Project}
    {rest : List Project} {done : List String} (hmem : depKey dep ∈ done) :
    ManifestIter.scan fs wsPath (dep :: rest) done =
      ManifestIter.scan fs wsPath rest done := by
  simp [ManifestIter.scan, hmem]

theorem ManifestIter.scan_cons_new_found {fs : GraphFS} {wsPath : String}
    {dep : Project} {rest : List Project} {done : List String}
    (hmem : depKey dep ∉ done)
    (hfind : (GraphFS.find fs (encM wsPath (depKey dep))).isSome = true) :
    ManifestIter.scan fs wsPath (dep :: rest) done =
      ((wsPath ++ "/" ++ depKey dep, encM wsPath (depKey dep)) ::
        (ManifestIter.scan fs wsPath rest (done ++ [depKey dep])).1,
       (ManifestIter.scan fs wsPath rest (done ++ [depKey dep])).2) := by
  have hf : GraphFS.find fs (wsPath ++ "/" ++ depKey dep ++ "/" ++ manifestFile) =
      GraphFS.find fs (encM wsPath (depKey dep)) := rfl
  simp [ManifestIter.scan, hmem, hf, hfind, encM]

theorem ManifestIter.scan_cons_new_absent {fs : GraphFS} {wsPath : String}
    {dep : Project} {rest : List Project} {done : List String}
    (hmem : depKey dep ∉ done)
    (hfind : (GraphFS.find fs (encM wsPath (depKey dep))).isSome = false) :
    ManifestIter.scan fs wsPath (dep :: rest) done =
      ManifestIter.scan fs wsPath rest (done ++ [depKey dep]) := by
  have hf : GraphFS.find fs (wsPath ++ "/" ++ depKey dep ++ "/" ++ manifestFile) =
      GraphFS.find fs (encM wsPath (depKey dep)) := rfl
  simp [ManifestIter.scan, hmem, hf, hfind, encM]

theorem ManifestIter.scan_keys_spec (fs : GraphFS) (wsPath : String) :
    ∀ (deps : List Project) (done : List String),
      ∃ new ks,
        (ManifestIter.scan fs wsPath deps done).2 = done ++ new
        ∧ new.Nodup
        ∧ (∀ k ∈ new, k ∉ done)
        ∧ (∀ k ∈ new, ∃ d ∈ deps, depKey d = k)
        ∧ List.Sublist ks new
        ∧ (ManifestIter.scan fs wsPath deps done).1 =
            ks.map (fun k => (wsPath ++ "/" ++ k, encM wsPath k))
        ∧ (∀ k ∈ ks, (GraphFS.find fs (encM wsPath k)).isSome = true) := by
  intro deps
  induction deps with
  | nil =>
      intro done
      refine ⟨[], [], by simp [ManifestIter.scan], by simp, by simp, by simp,
        List.Sublist.refl _, by simp [ManifestIter.scan], by simp⟩
  | cons dep rest ih =>
      intro done
      by_cases hmem : depKey dep ∈ done
      · obtain ⟨new, ks, h1, h2, h3, h4, h5, h6, h7⟩ := ih done
        rw [ManifestIter.scan_cons_mem hmem]
        refine ⟨new, ks, h1, h2, h3, ?_, h5, h6, h7⟩
        intro k hk
        obtain ⟨d, hd, hdd⟩ := h4 k hk
        exact ⟨d, List.mem_cons_of_mem _ hd, hdd⟩
      · obtain ⟨new', ks', h1, h2, h3, h4, h5, h6, h7⟩ := ih (done ++ [depKey dep])
        have hfresh : ∀ k ∈ new', k ∉ done ∧ k ≠ depKey dep := by
          intro k hk
          have := h3 k hk
          simp only [List.mem_append, List.mem_singleton] at this
          exact ⟨fun hc => this (Or.inl hc), fun hc => this (Or.inr hc)⟩
        rcases hfind : (GraphFS.find fs (encM wsPath (depKey dep))).isSome with _ | _
        · rw [ManifestIter.scan_cons_new_absent hmem hfind]
          refine ⟨depKey dep :: new', ks', ?_, ?_, ?_, ?_, ?_, h6, h7⟩
          · rw [h1]; simp
          · exact List.nodup_cons.mpr ⟨fun hc => (hfresh _ hc).2 rfl, h2⟩
          · intro k hk
            rcases List.mem_cons.mp hk with hk | hk
            · subst hk; exact hmem
            · exact (hfresh k hk).1
          · intro k hk
            rcases List.mem_cons.mp hk with hk | hk
            · exact ⟨dep, List.mem_cons_self _ _, hk.symm⟩
            · obtain ⟨d, hd, hdd⟩ := h4 k hk
              exact ⟨d, List.mem_cons_of_mem _ hd, hdd⟩
          · exact List.Sublist.trans h5 (List.sublist_cons_self _ _)
        · rw [ManifestIter.scan_cons_new_found hmem hfind]
          refine ⟨depKey dep :: new', depKey dep :: ks', ?_, ?_, ?_, ?_, ?_, ?_, ?_⟩
          · rw [h1]; simp
          · exact List.nodup_cons.mpr ⟨fun hc => (hfresh _ hc).2 rfl, h2⟩
          · intro k hk
            rcases List.mem_cons.mp hk with hk | hk
            · subst hk; exact hmem
            · exact (hfresh k hk).1
          · intro k hk
            rcases List.mem_cons.mp hk with hk | hk
            · exact ⟨dep, List.mem_cons_self _ _, hk.symm⟩
            · obtain ⟨d, hd, hdd⟩ := h4 k hk
              exact ⟨d, List.mem_cons_of_mem _ hd, hdd⟩
          · exact List.Sublist.cons₂ _ h5
          · simp only [List.map_cons, h6]
          · intro k hk
            rcases List.mem_cons.mp hk with hk | hk
            · subst hk; exact hfind
            · exact h7 k hk

theorem ManifestIter.go_keys_spec (fs : GraphFS) (wsPath : String) :
    ∀ (fuel : Nat) (P : List (String × String)) (done : List String)
      (out : List (String × Manifest)) (done' : List String),
      ManifestIter.go fs wsPath fuel P done = .ok (out, done') →
      (∃ new, done' = done ++ new ∧ new.Nodup ∧ (∀ k ∈ new, k ∉ done)
          ∧ (∀ k ∈ new, k ∈ allKeys fs))
      ∧ out.length + done.length ≤ P.length + done'.length
      ∧ (∀ s ∈ out.map Prod.fst, s ∈ P.map Prod.snd
          ∨ ∃ k, k ∉ done ∧ k ∈ allKeys fs ∧ s = encM wsPath k)
      ∧ ((P.map Prod.snd).Nodup →
          (∀ it ∈ P, ∀ k, it.2 = encM wsPath k → k ∈ done) →
          (out.map Prod.fst).Nodup) := by
  intro fuel
  induction fuel with
  | zero =>
      intro P done out done' h
      cases P with
      | nil =>
          simp only [ManifestIter.go, Except.ok.injEq, Prod.mk.injEq] at h
          obtain ⟨h1, h2⟩ := h; subst h1; subst h2
          exact ⟨⟨[], by simp, by simp, by simp, by simp⟩, by simp, by simp,
            fun _ _ => by simp⟩
      | cons item rest =>
          simp only [ManifestIter.go] at h
          exact Except.noConfusion h
  | succ fuel ih =>
      intro P done out done' h
      cases P with
      | nil =>
          simp only [ManifestIter.go, Except.ok.injEq, Prod.mk.injEq] at h
          obtain ⟨h1, h2⟩ := h; subst h1; subst h2
          exact ⟨⟨[], by simp, by simp, by simp, by simp⟩, by simp, by simp,
            fun _ _ => by simp⟩
      | cons item rest =>
          simp only [ManifestIter.go] at h
          split at h
          · exact Except.noConfusion h
          · rename_i spec hfindItem
            split at h
            · exact Except.noConfusion h
            · rename_i out₂ done₂ hrec
              simp only [Except.ok.injEq, Prod.mk.injEq] at h
              obtain ⟨hout, hdone⟩ := h
              subst hout; subst hdone
              obtain ⟨new₁, ks, hs1, hs2, hs3, hs4, hs5, hs6, hs7⟩ :=
                ManifestIter.scan_keys_spec fs wsPath spec.dependencies done
              have hnew₁K : ∀ k ∈ new₁, k ∈ allKeys fs := by
                intro k hk
                obtain ⟨d, hd, hdd⟩ := hs4 k hk
                exact hdd ▸ mem_allKeys (GraphFS.find_mem hfindItem) hd
              have hksnew : ∀ k ∈ ks, k ∈ new₁ := fun k hk => hs5.subset hk
              rw [hs6, hs1] at hrec
              obtain ⟨⟨new₂, hg1, hg2, hg3, hg4⟩, hlen, hmapchar, hnodup⟩ :=
                ih _ _ out₂ done₂ hrec
              have hmapsnd :
                  (ks.map (fun k => (wsPath ++ "/" ++ k, encM wsPath k))).map Prod.snd =
                    ks.map (encM wsPath) := by
                rw [List.map_map]; rfl
              refine ⟨⟨new₁ ++ new₂, ?_, ?_, ?_, ?_⟩, ?_, ?_, ?_⟩
              · rw [hg1, List.append_assoc]
              · refine List.Nodup.append hs2 hg2 ?_
                intro a ha₁ ha₂
                exact hg3 a ha₂ (by simp [ha₁])
              · intro k hk
                rcases List.mem_append.mp hk with hk | hk
                · exact hs3 k hk
                · intro hc
                  exact hg3 k hk (by simp [hc])
              · intro k hk
                rcases List.mem_append.mp hk with hk | hk
                · exact hnew₁K k hk
                · exact hg4 k hk
              · have e1 : (done ++ new₁).length = done.length + new₁.length := by simp
                have e2 : ((ks.map (fun k => (wsPath ++ "/" ++ k, encM wsPath k))) ++
                    rest).length = ks.length + rest.length := by simp
                have e3 : ks.length ≤ new₁.length := hs5.length_le
                rw [e1, e2] at hlen
                simp only [List.length_cons]
                omega
              · intro s hs
                simp only [List.map_cons, List.mem_cons] at hs
                rcases hs with hs | hs
                · subst hs
                  left
                  simp
                · rcases hmapchar s hs with hmem | ⟨k, hk1, hk2, hk3⟩
                  · rw [List.map_append, hmapsnd, List.mem_append] at hmem
                    rcases hmem with hmem | hmem
                    · obtain ⟨k, hk, hke⟩ := List.mem_map.mp hmem
                      exact Or.inr ⟨k, hs3 k (hksnew k hk), hnew₁K k (hksnew k hk), hke.symm⟩
                    · exact Or.inl (by simp [hmem])
                  · exact Or.inr ⟨k, fun hc => hk1 (by simp [hc]), hk2, hk3⟩
              · intro Hnd Henc
                simp only [List.map_cons] at Hnd ⊢
                have hksN : ks.Nodup := List.Nodup.sublist hs5 hs2
                have hksmapN : (ks.map (encM wsPath)).Nodup :=
                  List.Nodup.map (encM_injective wsPath) hksN
                obtain ⟨hheadnotin, hrestN⟩ := List.nodup_cons.mp Hnd
                have hdisj : (ks.map (encM wsPath)).Disjoint (rest.map Prod.snd) := by
                  intro a ha₁ ha₂
                  obtain ⟨k, hk, hke⟩ := List.mem_map.mp ha₁
                  obtain ⟨it', hit', hit'e⟩ := List.mem_map.mp ha₂
                  have hin := Henc it' (List.mem_cons_of_mem _ hit') k
                    (by rw [hit'e, ← hke])
                  exact hs3 k (hksnew k hk) hin
                have Hnd' : (((ks.map (fun k => (wsPath ++ "/" ++ k, encM wsPath k))) ++
                    rest).map Prod.snd).Nodup := by
                  rw [List.map_append, hmapsnd]
                  exact List.Nodup.append hksmapN hrestN hdisj
                have Henc' : ∀ it' ∈ (ks.map (fun k => (wsPath ++ "/" ++ k, encM wsPath k))) ++
                    rest, ∀ k, it'.2 = encM wsPath k → k ∈ done ++ new₁ := by
                  intro it' hit' k hk
                  rcases List.mem_append.mp hit' with hit' | hit'
                  · obtain ⟨k', hk', hk'e⟩ := List.mem_map.mp hit'
                    have hsnd : it'.2 = encM wsPath k' := by rw [← hk'e]
                    have hkk : k' = k := encM_injective wsPath (by rw [← hsnd]; exact hk)
                    subst hkk
                    exact List.mem_append.mpr (Or.inr (hksnew k' hk'))
                  · exact List.mem_append.mpr
                      (Or.inl (Henc it' (List.mem_cons_of_mem _ hit') k hk))
                have hout₂N : (out₂.map Prod.fst).Nodup := hnodup Hnd' Henc'
                refine List.nodup_cons.mpr ⟨?_, hout₂N⟩
                intro hc
                rcases hmapchar item.2 hc with hmem | ⟨k, hk1, _, hk3⟩
                · rw [List.map_append, hmapsnd, List.mem_append] at hmem
                  rcases hmem with hmem | hmem
                  · obtain ⟨k, hk, hke⟩ := List.mem_map.mp hmem
                    have hin := Henc item (List.mem_cons_self _ _) k hke.symm
                    exact hs3 k (hksnew k hk) hin
                  · exact hheadnotin hmem
                · have hin := Henc item (List.mem_cons_self _ _) k hk3
                  exact hk1 (by simp [hin])

theorem countFresh_append_singleton_lt {fs : GraphFS} {done : List String} {k : String}
    (hk1 : k ∉ done) (hk2 : k ∈ allKeys fs) :
    countFresh fs (done ++ [k]) < countFresh fs done := by
  unfold countFresh
  have hkl : k ∈ (allKeys fs).dedup := List.mem_dedup.mpr hk2
  have himp : ∀ a : String, decide (a ∉ done ++ [k]) = true → decide (a ∉ done) = true := by
    intro a ha
    simp only [decide_eq_true_eq] at *
    intro hc
    exact ha (by simp [hc])
  have heq : (allKeys fs).dedup.filter (fun a => decide (a ∉ done ++ [k])) =
      ((allKeys fs).dedup.filter (fun a => decide (a ∉ done))).filter
        (fun a => decide (a ∉ done ++ [k])) := by
    rw [List.filter_filter]
    apply List.filter_congr
    intro a _
    cases hq : decide (a ∉ done ++ [k])
    · simp
    · simp [himp a hq]
  have hsub : List.Sublist
      ((allKeys fs).dedup.filter (fun a => decide (a ∉ done ++ [k])))
      ((allKeys fs).dedup.filter (fun a => decide (a ∉ done))) := by
    rw [heq]
    exact List.filter_sublist _
  have hmemp : k ∈ (allKeys fs).dedup.filter (fun a => decide (a ∉ done)) := by
    rw [List.mem_filter]
    exact ⟨hkl, by simpa using hk1⟩
  have hmemq : k ∉ (allKeys fs).dedup.filter (fun a => decide (a ∉ done ++ [k])) := by
    rw [List.mem_filter]
    intro ⟨_, hc⟩
    simp at hc
  rcases Nat.lt_or_ge
      ((allKeys fs).dedup.filter (fun a => decide (a ∉ done ++ [k]))).length
      ((allKeys fs).dedup.filter (fun a => decide (a ∉ done))).length with hlt | hge
  · exact hlt
  · exfalso
    have hle := hsub.length_le
    have heq2 := hsub.eq_of_length (Nat.le_antisymm hle hge)
    rw [heq2] at hmemq
    exact hmemq hmemp

theorem countFresh_append {fs : GraphFS} :
    ∀ (new done : List String), new.Nodup → (∀ k ∈ new, k ∉ done) →
      (∀ k ∈ new, k ∈ allKeys fs) →
      countFresh fs (done ++ new) + new.length ≤ countFresh fs done := by
  intro new
  induction new with
  | nil => intro done _ _ _; simp
  | cons k new' ih =>
      intro done hnd hfresh hK
      have hstep : countFresh fs (done ++ [k]) < countFresh fs done :=
        countFresh_append_singleton_lt (hfresh k (by simp)) (hK k (by simp))
      have hih := ih (done ++ [k]) (List.nodup_cons.mp hnd).2
        (fun x hx hc => by
          rcases List.mem_append.mp hc with hc | hc
          · exact hfresh x (List.mem_cons_of_mem _ hx) hc
          · rw [List.mem_singleton] at hc
            subst hc
            exact (List.nodup_cons.mp hnd).1 hx)
        (fun x hx => hK x (List.mem_cons_of_mem _ hx))
      have hrw : done ++ k :: new' = (done ++ [k]) ++ new' := by simp
      rw [hrw]
      simp only [List.length_cons]
      omega

theorem ManifestIter.go_total (fs : GraphFS) (wsPath : String) :
    ∀ (fuel : Nat) (P : List (String × String)) (done : List String),
      (∀ it ∈ P, (GraphFS.find fs it.2).isSome = true) →
      P.length + countFresh fs done ≤ fuel →
      ∃ r, ManifestIter.go fs wsPath fuel P done = .ok r := by
  intro fuel
  induction fuel with
  | zero =>
      intro P done hpres hcount
      cases P with
      | nil => exact ⟨([], done), rfl⟩
      | cons item rest => simp at hcount
  | succ fuel ih =>
      intro P done hpres hcount
      cases P with
      | nil => exact ⟨([], done), rfl⟩
      | cons item rest =>
          obtain ⟨spec, hspec⟩ := Option.isSome_iff_exists.mp (hpres item (by simp))
          obtain ⟨new₁, ks, hs1, hs2, hs3, hs4, hs5, hs6, hs7⟩ :=
            ManifestIter.scan_keys_spec fs wsPath spec.dependencies done
          have hnew₁K : ∀ k ∈ new₁, k ∈ allKeys fs := by
            intro k hk
            obtain ⟨d, hd, hdd⟩ := hs4 k hk
            exact hdd ▸ mem_allKeys (GraphFS.find_mem hspec) hd
          have hcf : countFresh fs (done ++ new₁) + new₁.length ≤ countFresh fs done :=
            countFresh_append new₁ done hs2 hs3 hnew₁K
          have hpres' : ∀ it' ∈ (ManifestIter.scan fs wsPath spec.dependencies done).1 ++ rest,
              (GraphFS.find fs it'.2).isSome = true := by
            intro it' hit'
            rcases List.mem_append.mp hit' with hit' | hit'
            · rw [hs6] at hit'
              obtain ⟨k, hk, hke⟩ := List.mem_map.mp hit'
              rw [← hke]
              exact hs7 k hk
            · exact hpres it' (List.mem_cons_of_mem _ hit')
          have hlen' : ((ManifestIter.scan fs wsPath spec.dependencies done).1 ++ rest).length
              + countFresh fs ((ManifestIter.scan fs wsPath spec.dependencies done).2)
              ≤ fuel := by
            rw [hs6, hs1]
            have hkl : ks.length ≤ new₁.length := hs5.length_le
            simp only [List.length_append, List.length_map]
            simp only [List.length_cons] at hcount
            omega
          obtain ⟨⟨out₁, done₁⟩, hr⟩ := ih _ _ hpres' hlen'
          refine ⟨((item.2, spec) :: out₁, done₁), ?_⟩
          simp only [ManifestIter.go, hspec]
          rw [hr]

/-- C2 counterexample: in `fsDup` the path `main` is reachable via two distinct
declaration chains (declared by the root manifest and again by `dep1`'s
manifest), yet the Project Walker's output contains that path twice — once as
the unconditionally yielded main project and once for the first declaration
chain — because the main project is never entered in the `done` list.  So the
claim's "that path appears in the output sequence exactly once" fails. -/
theorem c2_counterexample :
    ProjectIter.run fsDup wsC1 "ws/main/anyrepo.toml" false false (fun _ => "") 10 =
      .ok ([ { name := "main", path := "main" },
             { name := "dep1", path := "dep1" },
             { name := "main", path := "main" } ], ["dep1", "main"])
    ∧ ¬ (([ { name := "main", path := "main" },
            { name := "dep1", path := "dep1" },
            { name := "main", path := "main" } ] : List ResolvedProject).map
          ResolvedProject.path).Nodup :=
  ⟨by decide, by decide⟩

/-- C2 as amended: in every traversal each path appears exactly once among the
dependency-derived elements.  For the Project Walker the resolved projects
yielded by the dependency recursion have pairwise-distinct paths (and the final
`done` list is exactly those paths in order); for the Manifest Tree Walker all
manifests yielded after the root have pairwise-distinct file paths and the
visited `done` list is duplicate-free.  The unconditionally yielded main/root
element is not deduplicated against declared paths, so a declared path equal to
the main project's path can appear a second time. -/
theorem c2_dedup_amended :
    (∀ (fs : GraphFS) (ws : Workspace) (ru : Bool) (g : String → String) (fuel : Nat)
        (P : List (String × Manifest)) (out : List ResolvedProject) (d' : List String),
        ProjectIter.go fs ws ru g fuel P [] = .ok (out, d') →
        (out.map ResolvedProject.path).Nodup ∧ d' = out.map ResolvedProject.path)
    ∧ (∀ (fs : GraphFS) (ws : Workspace) (mp : String) (fuel : Nat)
        (out : List (String × Manifest)) (d' : List String),
        ManifestIter.run fs ws mp fuel = .ok (out, d') →
        ((out.map Prod.fst).drop 1).Nodup ∧ d'.Nodup) := by
  constructor
  · intro fs ws ru g fuel P out d' h
    obtain ⟨h1, h2⟩ := ProjectIter.go_paths_spec fs ws ru g fuel P [] out d' h
    have hd : d' = out.map ResolvedProject.path := by simpa using h1
    refine ⟨?_, hd⟩
    have hnd := h2 List.nodup_nil
    rwa [hd] at hnd
  · intro fs ws mp fuel out d' h
    have hdn : d'.Nodup := by
      obtain ⟨⟨new, hg1, hg2, _, _⟩, _, _, _⟩ :=
        ManifestIter.go_keys_spec fs ws.path fuel [(ws.main_path, mp)] [] out d' h
      rw [hg1]
      simpa using hg2
    refine ⟨?_, hdn⟩
    unfold ManifestIter.run at h
    cases fuel with
    | zero =>
        simp only [ManifestIter.go] at h
        exact Except.noConfusion h
    | succ fuel =>
        simp only [ManifestIter.go] at h
        split at h
        · exact Except.noConfusion h
        · rename_i spec hfindItem
          split at h
          · exact Except.noConfusion h
          · rename_i out₂ done₂ hrec
            simp only [Except.ok.injEq, Prod.mk.injEq] at h
            obtain ⟨hout, hdone⟩ := h
            subst hout; subst hdone
            obtain ⟨new₁, ks, hs1, hs2, hs3, hs4, hs5, hs6, hs7⟩ :=
              ManifestIter.scan_keys_spec fs ws.path spec.dependencies []
            rw [hs6, hs1] at hrec
            obtain ⟨_, _, _, hnodup⟩ :=
              ManifestIter.go_keys_spec fs ws.path fuel _ _ out₂ done₂ hrec
            have hksnew : ∀ k ∈ ks, k ∈ new₁ := fun k hk => hs5.subset hk
            have hksN : ks.Nodup := List.Nodup.sublist hs5 hs2
            have hmapsnd :
                (ks.map (fun k => (ws.path ++ "/" ++ k, encM ws.path k))).map Prod.snd =
                  ks.map (encM ws.path) := by
              rw [List.map_map]; rfl
            have Hnd' : (((ks.map (fun k => (ws.path ++ "/" ++ k, encM ws.path k))) ++
                ([] : List (String × String))).map Prod.snd).Nodup := by
              rw [List.append_nil, hmapsnd]
              exact List.Nodup.map (encM_injective ws.path) hksN
            have Henc' : ∀ it' ∈ (ks.map (fun k => (ws.path ++ "/" ++ k, encM ws.path k))) ++
                ([] : List (String × String)), ∀ k, it'.2 = encM ws.path k →
                k ∈ ([] : List String) ++ new₁ := by
              intro it' hit' k hk
              rw [List.append_nil] at hit'
              obtain ⟨k', hk', hk'e⟩ := List.mem_map.mp hit'
              have hsnd : it'.2 = encM ws.path k' := by rw [← hk'e]
              have hkk : k' = k := encM_injective ws.path (by rw [← hsnd]; exact hk)
              subst hkk
              simpa using hksnew k' hk'
            have hout₂N : (out₂.map Prod.fst).Nodup := hnodup Hnd' Henc'
            simpa using hout₂N

/-- Witness for C2 as amended, on the end-to-end fixture (Project Walker) and on
the duplicate-declaration fixture (Tree Walker). -/
theorem c2_dedup_amended_witness :
    ((([ { name := "dep1", path := "dep1", url := some "../dep1" },
         { name := "dep2", path := "dep2", url := some "../dep2",
           revision := some "1-feature" },
         { name := "dep4", path := "dep4", url := some "../dep4" },
         { name := "dep3", path := "dep3", url := some "../dep3" } ] :
          List ResolvedProject).map ResolvedProject.path).Nodup
      ∧ (["dep1", "dep2", "dep4", "dep3"] : List String) =
          ([ { name := "dep1", path := "dep1", url := some "../dep1" },
             { name := "dep2", path := "dep2", url := some "../dep2",
               revision := some "1-feature" },
             { name := "dep4", path := "dep4", url := some "../dep4" },
             { name := "dep3", path := "dep3", url := some "../dep3" } ] :
              List ResolvedProject).map ResolvedProject.path)
    ∧ ((([ ("ws/main/anyrepo.toml",
            ({ projects := [ { name := "dep1" }, { name := "main" } ] } : Manifest)),
           ("ws/dep1/anyrepo.toml",
            ({ projects := [ { name := "main" } ] } : Manifest)),
           ("ws/main/anyrepo.toml",
            ({ projects := [ { name := "dep1" }, { name := "main" } ] } : Manifest)) ] :
            List (String × Manifest)).map Prod.fst).drop 1).Nodup
      ∧ (["dep1", "main"] : List String).Nodup :=
  ⟨c2_dedup_amended.1 fsC1 wsC1 false (fun _ => "") 10
     [("ws/main", { projects := [ { name := "dep1", url := some "../dep1" },
        { name := "dep2", url := some "../dep2", revision := some "1-feature" } ] })]
     _ _ (by decide),
   c2_dedup_amended.2 fsDup wsC1 "ws/main/anyrepo.toml" 10 _ _ (by decide)⟩

theorem countFresh_nil (fs : GraphFS) : countFresh fs [] = (allKeys fs).dedup.length := by
  unfold countFresh
  simp

theorem nodup_length_le_dedup {xs l : List String} (h1 : xs.Nodup)
    (h2 : ∀ x ∈ xs, x ∈ l) : xs.length ≤ l.dedup.length := by
  have hsub : xs.toFinset ⊆ l.toFinset := by
    intro a ha
    rw [List.mem_toFinset] at ha ⊢
    exact h2 a ha
  calc xs.length = xs.toFinset.card := (List.toFinset_card_of_nodup h1).symm
    _ ≤ l.toFinset.card := Finset.card_le_card hsub
    _ = l.dedup.length := List.card_toFinset l

/-- C3: for every workspace filesystem — including ones whose manifest files
mutually reference each other by path — the Manifest Tree Walker terminates:
with fuel one more than the number of distinct declared paths it completes with
a result (never exhausting the fuel), the visited `done` list is duplicate-free
(no path revisited) and drawn from the declared paths, and the number of
yielded manifests is at most the number of distinct declared paths plus the
root element. -/
theorem c3_termination_bound (fs : GraphFS) (ws : Workspace) (mp : String)
    (hroot : (GraphFS.find fs mp).isSome = true) :
    ∃ out done',
      ManifestIter.run fs ws mp ((allKeys fs).dedup.length + 1) = .ok (out, done')
      ∧ done'.Nodup
      ∧ (∀ k ∈ done', k ∈ allKeys fs)
      ∧ out.length ≤ 1 + (allKeys fs).dedup.length := by
  have hpres : ∀ it ∈ [(ws.main_path, mp)], (GraphFS.find fs it.2).isSome = true := by
    intro it hit
    rw [List.mem_singleton] at hit
    subst hit
    exact hroot
  have hcount : ([(ws.main_path, mp)] : List (String × String)).length + countFresh fs [] ≤
      (allKeys fs).dedup.length + 1 := by
    rw [countFresh_nil]
    simp [Nat.add_comm]
  obtain ⟨⟨out, done'⟩, hok⟩ :=
    ManifestIter.go_total fs ws.path ((allKeys fs).dedup.length + 1)
      [(ws.main_path, mp)] [] hpres hcount
  obtain ⟨⟨new, hg1, hg2, _, hg4⟩, hlen, _, _⟩ :=
    ManifestIter.go_keys_spec fs ws.path _ _ _ out done' hok
  have hdN : done'.Nodup := by rw [hg1]; simpa using hg2
  have hdK : ∀ k ∈ done', k ∈ allKeys fs := by
    intro k hk
    rw [hg1] at hk
    exact hg4 k (by simpa using hk)
  refine ⟨out, done', hok, hdN, hdK, ?_⟩
  have hdl : done'.length ≤ (allKeys fs).dedup.length := nodup_length_le_dedup hdN hdK
  simp only [List.length_singleton, List.length_nil] at hlen
  omega

/-- Witness for C3 on the end-to-end fixture. -/
theorem c3_termination_bound_witness :
    ∃ out done',
      ManifestIter.run fsC1 wsC1 "ws/main/anyrepo.toml"
          ((allKeys fsC1).dedup.length + 1) = .ok (out, done')
      ∧ done'.Nodup
      ∧ (∀ k ∈ done', k ∈ allKeys fsC1)
      ∧ out.length ≤ 1 + (allKeys fsC1).dedup.length :=
  c3_termination_bound fsC1 wsC1 "ws/main/anyrepo.toml" (by decide)

end AnyRepo
